import Mathlib

/-!
Verification of the build-baron plugin's ticket-content pipeline
(`tickets.go`): name normalization, summary building, description
rendering, history-URL synthesis, pipeline assembly, and the
ticket-filing control flow.

Strings are modelled as Lean `String`s; the normalizer works on the
underlying `List Char` (the delimiters `/` and `\` are single-byte
ASCII, so byte indices and character indices agree for them).
External collaborators (user resolution, task lookup, the template
engine's failure mode, ticket submission) are supplied as an
environment record; everything else is translated directly from the
source.
-/

namespace BuildBaron

/-- Constant `FailingTasksField = "customfield_12950"` from `tickets.go`. -/
def FailingTasksField : String := "customfield_12950"

/-- Constant `UIRoot = "https://evergreen.mongodb.com"` from `tickets.go`. -/
def UIRoot : String := "https://evergreen.mongodb.com"

/-- Index of the last occurrence of character `c`, or `none`:
`strings.LastIndex(path, c)` for a single-character needle
(Go returns `-1` for absence, modelled as `none`). -/
def lastIdx (c : Char) : List Char → Option Nat
  | [] => none
  | a :: rest =>
    match lastIdx c rest with
    | some i => some (i + 1)
    | none => if a = c then some 0 else none

/-- Function `cleanTestName` from `tickets.go`, on the character list:
split after the rightmost `/` (retrying after stripping a trailing
`/`); failing that, the same for `\`; otherwise return the input. -/
def cleanChars (path : List Char) : List Char :=
  match h : lastIdx '/' path with
  | some unixIdx =>
    if unixIdx = path.length - 1 then
      cleanChars path.dropLast
    else
      path.drop (unixIdx + 1)
  | none =>
    match h2 : lastIdx '\\' path with
    | some windowsIdx =>
      if windowsIdx = path.length - 1 then
        cleanChars path.dropLast
      else
        path.drop (windowsIdx + 1)
    | none => path
termination_by path.length
decreasing_by
  · cases path with
    | nil => simp [lastIdx] at h
    | cons a rest => simp [List.dropLast]
  · cases path with
    | nil => simp [lastIdx] at h2
    | cons a rest => simp [List.dropLast]

/-- Function `func cleanTestName(path string) string`, on `String`. -/
def cleanTestName (path : String) : String :=
  String.mk (cleanChars path.data)

/-- One entry of `t.TestResults`: raw identifier (`TestFile`) and log URL. -/
structure TestResult where
  TestFile : String
  URL : String
deriving DecidableEq, Repr

/-- Fields of `model.Task` that the plugin reads. -/
structure Task where
  Id : String
  Project : String
  DisplayName : String
  BuildVariant : String
  TestResults : List TestResult
deriving DecidableEq, Repr

/-- Acting user (`plugin.GetUser`); only `Id` is read. -/
structure User where
  Id : String
deriving DecidableEq, Repr

/-- Struct `jiraTestFailure` from `tickets.go`. -/
structure jiraTestFailure where
  Name : String
  URL : String
  HistoryURL : String
deriving DecidableEq, Repr

/-- Function `func historyURL(t *model.Task, testName string) string`:
`fmt.Sprintf("%v/task_history/%v/%v#%v=fail", UIRoot, t.Project,
t.DisplayName, testName)`. -/
def historyURL (t : Task) (testName : String) : String :=
  UIRoot ++ "/task_history/" ++ t.Project ++ "/" ++ t.DisplayName ++
    "#" ++ testName ++ "=fail"

/-- Function `func getSummary(taskName string, tests []jiraTestFailure) string`. -/
def getSummary (taskName : String) (tests : List jiraTestFailure) : String :=
  if tests.length = 0 then
    taskName ++ " failure"
  else if tests.length > 4 then
    taskName ++ " failures"
  else
    String.intercalate ", " (tests.map (fun t => t.Name))

/-- Per-test line of `DescriptionTemplateString`: the body of
`range .Tests` is `*<Name>* - [Logs|<URL>] | [History|<HistoryURL>]`
followed by a blank line. -/
def testLine (ts : jiraTestFailure) : String :=
  "*" ++ ts.Name ++ "* - [Logs|" ++ ts.URL ++ "] | [History|" ++
    ts.HistoryURL ++ "]\n\n"

/-- Heading section of `DescriptionTemplateString`:
`h2. [<DisplayName> failed on <BuildVariant>|<UIRoot>/task/<Id>]`
with the template's surrounding newlines. -/
def descHeading (t : Task) : String :=
  "\nh2. [" ++ t.DisplayName ++ " failed on " ++ t.BuildVariant ++ "|" ++
    UIRoot ++ "/task/" ++ t.Id ++ "]\n\n"

/-- Closing attribution of `DescriptionTemplateString`:
`~BF Ticket Generated by [~<UserId>]~` with the template's newlines. -/
def descAttribution (userId : String) : String :=
  "\n\n\n\n~BF Ticket Generated by [~" ++ userId ++ "]~\n"

/-- Output of `DescriptionTemplate.Execute` on
`{Task, UserId, Tests}` when the engine succeeds: the template
expanded over the given data (`text/template` substitutes each field
and repeats the `range .Tests` body once per test, in order). -/
def renderDescription (t : Task) (userId : String)
    (tests : List jiraTestFailure) : String :=
  descHeading t ++ String.join (tests.map testLine) ++ descAttribution userId

/-- Function `func getDescription(...) (string, error)`: runs the
template engine on the args struct. The engine call is the one
external step; its possible failure is supplied as `engineErr`
(`none` means `Execute` succeeds and writes the expanded template). -/
def getDescription (engineErr : Option String) (t : Task) (userId : String)
    (tests : List jiraTestFailure) : Except String String :=
  match engineErr with
  | some e => Except.error e
  | none => Except.ok (renderDescription t userId tests)

/-- Value type for the JIRA request map `map[string]interface{}`:
the source stores strings, string lists and one-entry string maps. -/
inductive JiraValue where
  | str (s : String)
  | strList (l : List String)
  | nameMap (pairs : List (String × String))
deriving DecidableEq, Repr

/-- The JIRA API request laid out by `fileTicket`, as the sequence of
key/value assignments made to the `request` map. -/
def mkRequest (t : Task) (u : User) (tests : List jiraTestFailure)
    (desc : String) : List (String × JiraValue) :=
  [("project", JiraValue.nameMap [("key", "BF")]),
   ("summary", JiraValue.str (getSummary t.DisplayName tests)),
   (FailingTasksField, JiraValue.strList [t.DisplayName]),
   ("issuetype", JiraValue.nameMap [("name", "Build Failure")]),
   ("assignee", JiraValue.nameMap [("name", u.Id)]),
   ("reporter", JiraValue.nameMap [("name", u.Id)]),
   ("description", JiraValue.str desc)]

/-- The `testIds` membership map built by `fileTicket`:
`testIds := map[string]bool{}` followed by `testIds[testId] = true`
for each element; lookup of an absent key yields `false`. -/
def mkTestIdSet (testIdList : List String) : String → Bool :=
  testIdList.foldl (fun m testId => fun s => if s = testId then true else m s)
    (fun _ => false)

/-- The `jiraTestFailure` record `fileTicket` builds for one matching
test result. -/
def toFailure (t : Task) (test : TestResult) : jiraTestFailure :=
  { Name := cleanTestName test.TestFile,
    URL := test.URL,
    HistoryURL := historyURL t (cleanTestName test.TestFile) }

/-- The failed-test list built by `fileTicket`: walk `t.TestResults`
in stored order, appending a `jiraTestFailure` for each entry whose
raw `TestFile` is in the membership map. -/
def buildTests (t : Task) (testIdList : List String) : List jiraTestFailure :=
  t.TestResults.foldl
    (fun tests test =>
      if mkTestIdSet testIdList test.TestFile then
        tests ++ [toFailure t test]
      else tests)
    []

/-- Decoded request body of `fileTicket`: task id and selected test ids. -/
structure Input where
  TaskId : String
  TestIds : List String
deriving DecidableEq, Repr

/-- Result of `jiraHandler.CreateTicket`; only `Key` is read. -/
structure JiraResult where
  Key : String
deriving DecidableEq, Repr

/-- Body written by `plugin.WriteJSON`: either a message string or the
created-ticket result. -/
inductive RespBody where
  | msg (s : String)
  | ticket (r : JiraResult)
deriving DecidableEq, Repr

/-- HTTP response written by `fileTicket`. -/
structure Response where
  status : Nat
  body : RespBody
deriving DecidableEq, Repr

/-- Status constant `http.StatusOK`. -/
def StatusOK : Nat := 200

/-- Status constant `http.StatusBadRequest`. -/
def StatusBadRequest : Nat := 400

/-- Status constant `http.StatusUnauthorized`. -/
def StatusUnauthorized : Nat := 401

/-- Status constant `http.StatusNotFound`. -/
def StatusNotFound : Nat := 404

/-- Status constant `http.StatusInternalServerError`. -/
def StatusInternalServerError : Nat := 500

/-- Environment of one `fileTicket` invocation: the decoded input and
the outcome of each external collaborator call (`plugin.GetUser`,
`model.FindTask`, the template engine, `jiraHandler.CreateTicket`). -/
structure Env where
  input : Input
  user : Option User
  findTask : Except String (Option Task)
  engineErr : Option String
  createTicket : Except String JiraResult

/-- Observable outcome of one `fileTicket` invocation: the HTTP
response, the request handed to `CreateTicket` (if any), and how many
times `CreateTicket` was called. -/
structure Outcome where
  response : Response
  submitted : Option (List (String × JiraValue))
  createCalls : Nat
deriving DecidableEq, Repr

/-- Control flow of `func (bbp *BuildBaronPlugin) fileTicket`,
translated statement by statement from `tickets.go`. -/
def fileTicket (env : Env) : Outcome :=
  match env.user with
  | none =>
    { response := ⟨StatusUnauthorized, .msg "must be logged in to file a ticket"⟩,
      submitted := none, createCalls := 0 }
  | some u =>
    match env.findTask with
    | Except.error e =>
      { response := ⟨StatusInternalServerError, .msg e⟩,
        submitted := none, createCalls := 0 }
    | Except.ok none =>
      { response := ⟨StatusNotFound,
          .msg ("task not found for id " ++ env.input.TaskId)⟩,
        submitted := none, createCalls := 0 }
    | Except.ok (some t) =>
      let tests := buildTests t env.input.TestIds
      match getDescription env.engineErr t u.Id tests with
      | Except.error e =>
        { response := ⟨StatusBadRequest,
            .msg ("error creating description: " ++ e)⟩,
          submitted := none, createCalls := 0 }
      | Except.ok desc =>
        let request := mkRequest t u tests desc
        match env.createTicket with
        | Except.error e =>
          { response := ⟨StatusBadRequest,
              .msg ("error creating JIRA ticket: " ++ e)⟩,
            submitted := some request, createCalls := 1 }
        | Except.ok result =>
          { response := ⟨StatusOK, .ticket result⟩,
            submitted := some request, createCalls := 1 }

/-- Rightmost index of `c`, computed as the spec describes it: locate
the occurrence of `c` nearest the end (first hit when scanning the
reversal) and convert that to a position from the front. Used only to
state the spec's algorithm independently of `strings.LastIndex`. -/
def rightmostIdx (c : Char) (s : List Char) : Option Nat :=
  (s.reverse.findIdx? (fun a => a = c)).map (fun j => s.length - 1 - j)

/-- Name-normalizer algorithm exactly as the spec words it: rightmost
forward-slash first (strip-and-retry when it is the final character),
then the same rule for the rightmost backslash, else the input. -/
def cleanSpecChars (path : List Char) : List Char :=
  match h : rightmostIdx '/' path with
  | some i =>
    if i = path.length - 1 then
      cleanSpecChars path.dropLast
    else
      path.drop (i + 1)
  | none =>
    match h2 : rightmostIdx '\\' path with
    | some i =>
      if i = path.length - 1 then
        cleanSpecChars path.dropLast
      else
        path.drop (i + 1)
    | none => path
termination_by path.length
decreasing_by
  · cases path with
    | nil => simp [rightmostIdx] at h
    | cons a rest => simp [List.dropLast]
  · cases path with
    | nil => simp [rightmostIdx] at h2
    | cons a rest => simp [List.dropLast]

/-- Spec-worded normalizer on `String`. -/
def cleanTestNameSpec (path : String) : String :=
  String.mk (cleanSpecChars path.data)

/-- Concrete task with no test results, for instantiating theorems. -/
def taskEmpty : Task :=
  { Id := "123", Project := "P", DisplayName := "T", BuildVariant := "V",
    TestResults := [] }

/-- Concrete task with two test results, for instantiating theorems. -/
def taskTwo : Task :=
  { Id := "123", Project := "P", DisplayName := "T", BuildVariant := "V",
    TestResults := [{ TestFile := "a", URL := "u1" },
                    { TestFile := "b", URL := "u2" }] }

/-- Concrete acting user, for instantiating theorems. -/
def userAlice : User := { Id := "alice" }

/-- Environment in which every collaborator succeeds. -/
def envSubmitOK : Env :=
  { input := { TaskId := "tid", TestIds := [] },
    user := some userAlice,
    findTask := Except.ok (some taskEmpty),
    engineErr := none,
    createTicket := Except.ok { Key := "BF-1" } }

/-- Environment in which the template engine fails. -/
def envRenderFail : Env :=
  { input := { TaskId := "tid", TestIds := [] },
    user := some userAlice,
    findTask := Except.ok (some taskEmpty),
    engineErr := some "boom",
    createTicket := Except.ok { Key := "K-1" } }

end BuildBaron

namespace BuildBaron

/-- A character list has no occurrence of `c` exactly when
`strings.LastIndex` reports absence. -/
theorem lastIdx_eq_none_iff (c : Char) (l : List Char) :
    lastIdx c l = none ↔ c ∉ l := by
  induction l with
  | nil => simp [lastIdx]
  | cons a rest ih =>
    cases h : lastIdx c rest with
    | some i =>
      have hc : c ∈ rest := by
        by_contra hm
        rw [ih.mpr hm] at h
        simp at h
      simp [lastIdx, h, hc]
    | none =>
      have hc : c ∉ rest := ih.mp h
      by_cases hac : a = c
      · simp [lastIdx, h, hac]
      · simp [lastIdx, h, hac, hc]
        tauto

/-- Nothing after the last occurrence of `c` is another `c`. -/
theorem lastIdx_not_mem_drop (c : Char) :
    ∀ (l : List Char) (i : Nat), lastIdx c l = some i → c ∉ l.drop (i + 1) := by
  intro l
  induction l with
  | nil => intro i h; simp [lastIdx] at h
  | cons a rest ih =>
    intro i h
    cases hr : lastIdx c rest with
    | some j =>
      simp only [lastIdx, hr] at h
      injection h with h'
      subst h'
      simp only [List.drop_succ_cons]
      exact ih j hr
    | none =>
      simp only [lastIdx, hr] at h
      by_cases hac : a = c
      · simp only [hac, if_pos rfl] at h
        injection h with h'
        subst h'
        simp only [List.drop_succ_cons, List.drop_zero]
        exact (lastIdx_eq_none_iff c rest).mp hr
      · simp [hac] at h

/-- The normalizer maps the empty list to itself. -/
theorem cleanChars_nil : cleanChars [] = [] := by
  rw [cleanChars.eq_def]
  simp [lastIdx]

/-- Every character of the normalizer's output occurs in its input
(the output is a suffix of the input or of a recursively stripped
input). Stated with an explicit length fuel for the induction. -/
theorem cleanChars_subset :
    ∀ (n : Nat) (l : List Char), l.length ≤ n → cleanChars l ⊆ l := by
  intro n
  induction n with
  | zero =>
    intro l hl
    obtain rfl : l = [] := List.eq_nil_of_length_eq_zero (Nat.le_zero.mp hl)
    rw [cleanChars_nil]
    exact fun x hx => hx
  | succ n ih =>
    intro l hl
    rw [cleanChars.eq_def]
    split
    case _ unixIdx h =>
      split
      · exact (ih l.dropLast (by simp [List.length_dropLast]; omega)).trans
          (List.dropLast_subset l)
      · exact List.drop_subset _ l
    case _ h =>
      split
      case _ windowsIdx h2 =>
        split
        · exact (ih l.dropLast (by simp [List.length_dropLast]; omega)).trans
            (List.dropLast_subset l)
        · exact List.drop_subset _ l
      case _ h2 => exact fun x hx => hx

/-- The normalizer's output never contains a forward slash. -/
theorem slash_not_mem_cleanChars :
    ∀ (n : Nat) (l : List Char), l.length ≤ n → '/' ∉ cleanChars l := by
  intro n
  induction n with
  | zero =>
    intro l hl
    obtain rfl : l = [] := List.eq_nil_of_length_eq_zero (Nat.le_zero.mp hl)
    rw [cleanChars_nil]
    simp
  | succ n ih =>
    intro l hl
    rw [cleanChars.eq_def]
    split
    case _ unixIdx h =>
      split
      · exact ih l.dropLast (by simp [List.length_dropLast]; omega)
      · exact lastIdx_not_mem_drop '/' l unixIdx h
    case _ h =>
      have hns : '/' ∉ l := (lastIdx_eq_none_iff '/' l).mp h
      split
      case _ windowsIdx h2 =>
        split
        · exact ih l.dropLast (by simp [List.length_dropLast]; omega)
        · exact fun hx => hns (List.drop_subset _ l hx)
      case _ h2 => exact hns

/-- On an input without forward slashes, the normalizer's output never
contains a backslash. -/
theorem backslash_not_mem_cleanChars :
    ∀ (n : Nat) (l : List Char), l.length ≤ n → '/' ∉ l → '\\' ∉ cleanChars l := by
  intro n
  induction n with
  | zero =>
    intro l hl _
    obtain rfl : l = [] := List.eq_nil_of_length_eq_zero (Nat.le_zero.mp hl)
    rw [cleanChars_nil]
    simp
  | succ n ih =>
    intro l hl hns
    rw [cleanChars.eq_def]
    split
    case _ unixIdx h =>
      exfalso
      rw [(lastIdx_eq_none_iff '/' l).mpr hns] at h
      simp at h
    case _ h =>
      split
      case _ windowsIdx h2 =>
        split
        · exact ih l.dropLast (by simp [List.length_dropLast]; omega)
            (fun hx => hns (List.dropLast_subset l hx))
        · exact lastIdx_not_mem_drop '\\' l windowsIdx h2
      case _ h2 => exact (lastIdx_eq_none_iff '\\' l).mp h2

/-- An input without either delimiter is a fixed point of the normalizer. -/
theorem cleanChars_eq_self (l : List Char) (h1 : '/' ∉ l) (h2 : '\\' ∉ l) :
    cleanChars l = l := by
  rw [cleanChars.eq_def]
  rw [(lastIdx_eq_none_iff '/' l).mpr h1, (lastIdx_eq_none_iff '\\' l).mpr h2]

/-- The normalizer never lengthens its input. -/
theorem cleanChars_length_le :
    ∀ (n : Nat) (l : List Char), l.length ≤ n → (cleanChars l).length ≤ l.length := by
  intro n
  induction n with
  | zero =>
    intro l hl
    obtain rfl : l = [] := List.eq_nil_of_length_eq_zero (Nat.le_zero.mp hl)
    rw [cleanChars_nil]
  | succ n ih =>
    intro l hl
    rw [cleanChars.eq_def]
    split
    case _ unixIdx h =>
      split
      · have := ih l.dropLast (by simp [List.length_dropLast]; omega)
        simp [List.length_dropLast] at this ⊢
        omega
      · simp [List.length_drop]
    case _ h =>
      split
      case _ windowsIdx h2 =>
        split
        · have := ih l.dropLast (by simp [List.length_dropLast]; omega)
          simp [List.length_dropLast] at this ⊢
          omega
        · simp [List.length_drop]
      case _ h2 => exact Nat.le_refl _

/-- Unfuelled restatement: the output has no forward slash. -/
theorem cleanChars_no_slash (l : List Char) : '/' ∉ cleanChars l :=
  slash_not_mem_cleanChars l.length l (Nat.le_refl _)

/-- An input ending in `c` has its last occurrence of `c` at the last
position. -/
theorem lastIdx_concat_self (c : Char) :
    ∀ l : List Char, lastIdx c (l ++ [c]) = some l.length := by
  intro l
  induction l with
  | nil => simp [lastIdx]
  | cons a rest ih => simp [lastIdx, ih]

/-- On an input with a trailing slash, the normalizer recurses on the
input minus that slash, a strictly shorter list. -/
theorem cleanChars_trailing_slash (l : List Char) (hne : l ≠ [])
    (hlast : l.getLast? = some '/') :
    cleanChars l = cleanChars l.dropLast ∧ l.dropLast.length < l.length := by
  obtain ⟨d, rfl⟩ : ∃ d, l = d ++ ['/'] :=
    ⟨l.dropLast, (List.dropLast_append_getLast? '/' (Option.mem_def.mpr hlast)).symm⟩
  constructor
  · rw [cleanChars.eq_def, lastIdx_concat_self '/' d]
    simp [List.dropLast_concat]
  · simp [List.dropLast_concat]

end BuildBaron

namespace BuildBaron

/-- Membership-map lookup with any initial map: a key reads `true`
exactly when it was inserted or was already `true`. -/
theorem mkTestIdSet_foldl (ids : List String) :
    ∀ (m : String → Bool) (s : String),
      (ids.foldl (fun m testId => fun x => if x = testId then true else m x) m) s =
        (m s || ids.contains s) := by
  induction ids with
  | nil => intro m s; simp
  | cons a rest ih =>
    intro m s
    simp only [List.foldl_cons]
    rw [ih]
    by_cases hs : s = a
    · simp [hs, List.contains_cons]
    · simp [hs, List.contains_cons]

/-- The membership map built from the selection list answers exactly
list membership, with exact string matching. -/
theorem mkTestIdSet_eq_mem (ids : List String) (s : String) :
    mkTestIdSet ids s = true ↔ s ∈ ids := by
  rw [mkTestIdSet, mkTestIdSet_foldl]
  simp

/-- The append-if loop over the task's results equals a filter of the
stored results followed by a map, for any accumulator. -/
theorem buildTests_foldl (t : Task) (ids : List String) :
    ∀ (results : List TestResult) (acc : List jiraTestFailure),
      results.foldl
        (fun tests test =>
          if mkTestIdSet ids test.TestFile then tests ++ [toFailure t test]
          else tests) acc =
        acc ++ (results.filter (fun r => mkTestIdSet ids r.TestFile)).map (toFailure t) := by
  intro results
  induction results with
  | nil => intro acc; simp
  | cons r rest ih =>
    intro acc
    simp only [List.foldl_cons]
    by_cases hr : mkTestIdSet ids r.TestFile
    · rw [if_pos hr, ih]
      simp [List.filter_cons, hr]
    · rw [if_neg hr, ih]
      simp only [List.filter_cons]
      rw [if_neg (by simpa using hr)]

/-- The failed-test list is the stored results filtered by selection
membership and mapped to failure records. -/
theorem buildTests_eq (t : Task) (ids : List String) :
    buildTests t ids =
      (t.TestResults.filter (fun r => decide (r.TestFile ∈ ids))).map (toFailure t) := by
  rw [buildTests, buildTests_foldl]
  rw [List.nil_append]
  congr 1
  apply List.filter_congr
  intro r _
  rw [Bool.eq_iff_iff]
  rw [mkTestIdSet_eq_mem]
  simp

end BuildBaron

namespace BuildBaron

/-- C1 counterexample: the history URL does not have the form claimed
in the spec. At project `P`, task display name `T` and normalized test
name `foo.js`, the synthesized URL differs from
`<UIRoot>/task_history/P/T/foo.js#foo.js=fail`: the code never inserts
the test name as a path segment. -/
theorem historyURL_claim_false :
    historyURL taskEmpty "foo.js" ≠
      UIRoot ++ "/task_history/" ++ taskEmpty.Project ++ "/" ++
        taskEmpty.DisplayName ++ "/" ++ "foo.js" ++ "#" ++ "foo.js" ++ "=fail" := by
  decide

/-- C1 (amended): for every task record and normalized test name, the
history-URL synthesis returns exactly UIRoot, `/task_history/`, the
project, `/`, the display name, `#`, the test name, `=fail` — the
test name appears once, only in the fragment, with no
`/<testName>` path segment after the display name. -/
theorem historyURL_spec (t : Task) (testName : String) :
    historyURL t testName =
      UIRoot ++ "/task_history/" ++ t.Project ++ "/" ++ t.DisplayName ++
        "#" ++ testName ++ "=fail" := rfl

/-- C2 counterexample: the normalizer is not idempotent. On the mixed
path `a/b\c` the first application yields `b\c` and a second
application splits again on the backslash. -/
theorem cleanTestName_not_idem :
    cleanTestName (cleanTestName "a/b\\c") ≠ cleanTestName "a/b\\c" := by
  simp [cleanTestName, cleanChars, lastIdx]

/-- C2 (amended): the normalizer is idempotent on every string that
contains no backslash, and in general it reaches a fixed point after
two applications: a third application returns the second's output
unchanged. -/
theorem cleanTestName_idem (s : String) :
    ('\\' ∉ s.data → cleanTestName (cleanTestName s) = cleanTestName s) ∧
    cleanTestName (cleanTestName (cleanTestName s)) =
      cleanTestName (cleanTestName s) := by
  constructor
  · intro hb
    show String.mk (cleanChars (cleanChars s.data)) = String.mk (cleanChars s.data)
    congr 1
    apply cleanChars_eq_self
    · exact cleanChars_no_slash s.data
    · exact fun hx => hb (cleanChars_subset s.data.length s.data (Nat.le_refl _) hx)
  · show String.mk (cleanChars (cleanChars (cleanChars s.data))) =
      String.mk (cleanChars (cleanChars s.data))
    congr 1
    apply cleanChars_eq_self
    · exact cleanChars_no_slash _
    · exact backslash_not_mem_cleanChars _ _ (Nat.le_refl _) (cleanChars_no_slash s.data)

/-- Witness for the amended C2: on the backslash-free string `x/y`
a second application changes nothing. -/
theorem cleanTestName_idem_witness :
    cleanTestName (cleanTestName "x/y") = cleanTestName "x/y" :=
  (cleanTestName_idem "x/y").1 (by decide)

/-- C4: the summary is `<taskName> failure` for zero failures,
`<taskName> failures` for more than four, and otherwise the
comma-and-space-joined normalized names in the order supplied, without
the task name. -/
theorem getSummary_spec (taskName : String) (tests : List jiraTestFailure) :
    (tests.length = 0 → getSummary taskName tests = taskName ++ " failure") ∧
    (tests.length > 4 → getSummary taskName tests = taskName ++ " failures") ∧
    (1 ≤ tests.length → tests.length ≤ 4 →
      getSummary taskName tests =
        String.intercalate ", " (tests.map (fun t => t.Name))) := by
  refine ⟨?_, ?_, ?_⟩
  · intro h
    rw [getSummary, if_pos h]
  · intro h
    rw [getSummary, if_neg (by omega), if_pos h]
  · intro h1 h4
    rw [getSummary, if_neg (by omega), if_neg (by omega)]

/-- Witness for C4: two failures named `x` and `y` on task `T` give
the summary `x, y`. -/
theorem getSummary_spec_witness :
    getSummary "T" [{ Name := "x", URL := "u1", HistoryURL := "h1" },
                    { Name := "y", URL := "u2", HistoryURL := "h2" }] = "x, y" := by
  have h := (getSummary_spec "T"
    [{ Name := "x", URL := "u1", HistoryURL := "h1" },
     { Name := "y", URL := "u2", HistoryURL := "h2" }]).2.2 (by decide) (by decide)
  rw [h]
  rfl

/-- C9: the normalizer is total over all strings: the empty string is
the terminal case of the trailing-slash recursion, the output never
exceeds the input in length, and on a trailing-slash input the
recursive call operates on a strictly shorter list. -/
theorem cleanTestName_total :
    cleanTestName "" = "" ∧
    (∀ s : String, (cleanTestName s).length ≤ s.length) ∧
    (∀ l : List Char, l ≠ [] → l.getLast? = some '/' →
      cleanChars l = cleanChars l.dropLast ∧ l.dropLast.length < l.length) := by
  refine ⟨?_, ?_, ?_⟩
  · simp [cleanTestName, cleanChars, lastIdx]
  · intro s
    exact cleanChars_length_le s.data.length s.data (Nat.le_refl _)
  · exact fun l hne hlast => cleanChars_trailing_slash l hne hlast

/-- Witness for C9: on `a/` the recursion strips the trailing slash
and continues on the strictly shorter `a`. -/
theorem cleanTestName_total_witness :
    cleanChars ['a', '/'] = cleanChars (['a', '/'].dropLast) ∧
    (['a', '/'].dropLast).length < (['a', '/'] : List Char).length :=
  cleanTestName_total.2.2 ['a', '/'] (by decide) (by decide)

end BuildBaron

namespace BuildBaron

/-- A found index is within bounds (stated with the running start
index of `findIdx?`). -/
theorem findIdx_some_lt (p : Char → Bool) :
    ∀ (l : List Char) (i j : Nat), l.findIdx? p i = some j → j < i + l.length := by
  intro l
  induction l with
  | nil => intro i j h; simp [List.findIdx?] at h
  | cons a rest ih =>
    intro i j h
    rw [List.findIdx?_cons] at h
    by_cases hp : p a = true
    · rw [if_pos hp] at h
      injection h with h'
      subst h'
      simp only [List.length_cons]
      omega
    · rw [if_neg hp] at h
      have := ih (i + 1) j h
      simp only [List.length_cons]
      omega

/-- The last-index scan of the source agrees with the spec's
description of the rightmost delimiter: first hit on the reversal,
converted to a position from the front. -/
theorem lastIdx_eq_rightmostIdx (c : Char) (l : List Char) :
    lastIdx c l = rightmostIdx c l := by
  induction l with
  | nil => simp [lastIdx, rightmostIdx, List.findIdx?]
  | cons a rest ih =>
    cases hr : rest.reverse.findIdx? (fun x => x = c) with
    | some j =>
      have hlen : j < rest.length := by
        have h0 := findIdx_some_lt (fun x => x = c) rest.reverse 0 j hr
        simpa using h0
      rw [rightmostIdx, hr] at ih
      simp only [Option.map_some'] at ih
      have hrev : (a :: rest).reverse.findIdx? (fun x => x = c) = some j := by
        simp [List.reverse_cons, List.findIdx?_append, hr, Option.or]
      rw [rightmostIdx, hrev]
      simp only [lastIdx, ih, Option.map_some', List.length_cons]
      congr 1
      omega
    | none =>
      rw [rightmostIdx, hr] at ih
      simp only [Option.map_none'] at ih
      by_cases hac : a = c
      · have hrev : (a :: rest).reverse.findIdx? (fun x => x = c) =
            some rest.length := by
          simp [List.reverse_cons, List.findIdx?_append, hr, List.findIdx?, hac,
            Option.or]
        rw [rightmostIdx, hrev]
        simp [lastIdx, ih, hac]
      · have hrev : (a :: rest).reverse.findIdx? (fun x => x = c) = none := by
          simp [List.reverse_cons, List.findIdx?_append, hr, List.findIdx?, hac,
            Option.or]
        rw [rightmostIdx, hrev]
        simp [lastIdx, ih, hac]

/-- The spec-worded normalizer maps the empty list to itself. -/
theorem cleanSpecChars_nil : cleanSpecChars [] = [] := by
  rw [cleanSpecChars.eq_def]
  simp [rightmostIdx, List.findIdx?]

/-- The source normalizer and the spec-worded normalizer agree on
every character list. -/
theorem cleanChars_eq_specChars :
    ∀ (n : Nat) (l : List Char), l.length ≤ n → cleanChars l = cleanSpecChars l := by
  intro n
  induction n with
  | zero =>
    intro l hl
    obtain rfl : l = [] := List.eq_nil_of_length_eq_zero (Nat.le_zero.mp hl)
    rw [cleanChars_nil, cleanSpecChars_nil]
  | succ n ih =>
    intro l hl
    rw [cleanChars.eq_def, cleanSpecChars.eq_def,
      ← lastIdx_eq_rightmostIdx '/' l, ← lastIdx_eq_rightmostIdx '\\' l]
    split
    case _ unixIdx h =>
      split
      · exact ih l.dropLast (by simp [List.length_dropLast]; omega)
      · rfl
    case _ h =>
      split
      case _ windowsIdx h2 =>
        split
        · exact ih l.dropLast (by simp [List.length_dropLast]; omega)
        · rfl
      case _ h2 => rfl

/-- C5: the normalizer follows the spec's algorithm on every string
(rightmost forward slash first, strip-and-retry on a trailing
delimiter, then the rightmost backslash, else the input unchanged),
and in particular on the four spec examples. -/
theorem cleanTestName_algorithm :
    (∀ s : String, cleanTestName s = cleanTestNameSpec s) ∧
    cleanTestName "a/b/c" = "c" ∧
    cleanTestName "a\\b\\c" = "c" ∧
    cleanTestName "a/b/" = "b" ∧
    cleanTestName "" = "" := by
  refine ⟨?_, ?_, ?_, ?_, ?_⟩
  · intro s
    show String.mk (cleanChars s.data) = String.mk (cleanSpecChars s.data)
    rw [cleanChars_eq_specChars s.data.length s.data (Nat.le_refl _)]
  · simp [cleanTestName, cleanChars, lastIdx]
  · simp [cleanTestName, cleanChars, lastIdx]
  · simp [cleanTestName, cleanChars, lastIdx]
  · simp [cleanTestName, cleanChars, lastIdx]

/-- C3: the failure-detail list is obtained by walking the task's
results in stored order and keeping exactly those whose raw identifier
is in the selection (exact string match, unnormalized); the result is
a sublist of the task's full mapped result list, so it follows the
stored order, and selected identifiers without a matching result are
simply never consulted — the construction is total. -/
theorem buildTests_spec (t : Task) (ids : List String) :
    buildTests t ids =
      (t.TestResults.filter (fun r => decide (r.TestFile ∈ ids))).map (toFailure t) ∧
    (buildTests t ids).Sublist (t.TestResults.map (toFailure t)) := by
  refine ⟨buildTests_eq t ids, ?_⟩
  rw [buildTests_eq t ids]
  exact (List.filter_sublist _).map _

/-- C10: selections with the same underlying set of identifiers
(regardless of duplicates or order) produce the same failure-detail
list, hence the same summary and the same rendered description. -/
theorem buildTests_selection_set (t : Task) (uid : String)
    (ids1 ids2 : List String) (hset : ∀ s, s ∈ ids1 ↔ s ∈ ids2) :
    buildTests t ids1 = buildTests t ids2 ∧
    getSummary t.DisplayName (buildTests t ids1) =
      getSummary t.DisplayName (buildTests t ids2) ∧
    renderDescription t uid (buildTests t ids1) =
      renderDescription t uid (buildTests t ids2) := by
  have h : buildTests t ids1 = buildTests t ids2 := by
    rw [buildTests_eq, buildTests_eq]
    congr 1
    apply List.filter_congr
    intro r _
    simp [hset r.TestFile]
  exact ⟨h, by rw [h], by rw [h]⟩

/-- Witness for C10: the selections `b, a, a` and `a, b` produce the
same failure-detail list on a task with results `a` then `b`. -/
theorem buildTests_selection_set_witness :
    buildTests taskTwo ["b", "a", "a"] = buildTests taskTwo ["a", "b"] :=
  (buildTests_selection_set taskTwo "alice" ["b", "a", "a"] ["a", "b"]
    (by intro s; simp; tauto)).1

end BuildBaron

namespace BuildBaron

/-- C6: for every task, user and failure list the rendered description
is the heading (display name and build variant linked to
`<UIRoot>/task/<TaskId>`), then exactly one line per test — bolded
name, `Logs` link to the test's URL, `History` link to its history
URL — in input order, then the attribution line naming the acting
user; with zero tests the heading and attribution render and no
per-test line does. -/
theorem getDescription_spec (t : Task) (userId : String)
    (tests : List jiraTestFailure) :
    getDescription none t userId tests =
      Except.ok (descHeading t ++ String.join (tests.map testLine) ++
        descAttribution userId) ∧
    (tests.map testLine).length = tests.length ∧
    (∃ pre post, descHeading t = pre ++ (UIRoot ++ "/task/" ++ t.Id) ++ post ∧
      pre = "\nh2. [" ++ t.DisplayName ++ " failed on " ++ t.BuildVariant ++ "|" ∧
      post = "]\n\n") ∧
    descAttribution userId =
      "\n\n\n\n~BF Ticket Generated by [~" ++ userId ++ "]~\n" ∧
    (∀ ts, testLine ts = "*" ++ ts.Name ++ "* - [Logs|" ++ ts.URL ++
      "] | [History|" ++ ts.HistoryURL ++ "]\n\n") ∧
    getDescription none t userId [] =
      Except.ok (descHeading t ++ descAttribution userId) := by
  refine ⟨rfl, by simp, ?_, rfl, fun ts => rfl, ?_⟩
  · refine ⟨"\nh2. [" ++ t.DisplayName ++ " failed on " ++ t.BuildVariant ++ "|",
      "]\n\n", ?_, rfl, rfl⟩
    simp [descHeading, String.append_assoc]
  · show Except.ok (renderDescription t userId []) = _
    simp [renderDescription, String.join]

/-- C7: every error (not-authenticated, task-not-found, lookup
failure, render failure, submission failure) is terminal for the
invocation; `CreateTicket` is called at most once, and only when
description rendering succeeded; a render error surfaces as a
bad request before any submission attempt. -/
theorem fileTicket_error_flow (env : Env) :
    (fileTicket env).createCalls ≤ 1 ∧
    ((fileTicket env).createCalls = 1 → env.engineErr = none) ∧
    (env.user = none →
      (fileTicket env).response.status = StatusUnauthorized ∧
      (fileTicket env).createCalls = 0) ∧
    (∀ u e, env.user = some u → env.findTask = Except.error e →
      (fileTicket env).response.status = StatusInternalServerError ∧
      (fileTicket env).createCalls = 0) ∧
    (∀ u, env.user = some u → env.findTask = Except.ok none →
      (fileTicket env).response.status = StatusNotFound ∧
      (fileTicket env).createCalls = 0) ∧
    (∀ u t e, env.user = some u → env.findTask = Except.ok (some t) →
      env.engineErr = some e →
      (fileTicket env).response.status = StatusBadRequest ∧
      (fileTicket env).createCalls = 0 ∧
      (fileTicket env).submitted = none) ∧
    (∀ u t e, env.user = some u → env.findTask = Except.ok (some t) →
      env.engineErr = none → env.createTicket = Except.error e →
      (fileTicket env).response.status = StatusBadRequest ∧
      (fileTicket env).createCalls = 1) := by
  obtain ⟨inp, user, ft, re, ct⟩ := env
  refine ⟨?_, ?_, ?_, ?_, ?_, ?_, ?_⟩
  · rcases user with _ | u
    · simp [fileTicket]
    · rcases ft with e | _ | t
      · simp [fileTicket]
      · simp [fileTicket]
      · rcases re with _ | e
        · rcases ct with e2 | r <;> simp [fileTicket, getDescription]
        · simp [fileTicket, getDescription]
  · rcases user with _ | u
    · simp [fileTicket]
    · rcases ft with e | _ | t
      · simp [fileTicket]
      · simp [fileTicket]
      · rcases re with _ | e
        · intro _; rfl
        · rcases ct with e2 | r <;> simp [fileTicket, getDescription]
  · intro hu
    cases hu
    simp [fileTicket]
  · intro u e hu ht
    cases hu
    cases ht
    simp [fileTicket]
  · intro u hu ht
    cases hu
    cases ht
    simp [fileTicket]
  · intro u t e hu ht hr
    cases hu
    cases ht
    cases hr
    simp [fileTicket, getDescription]
  · intro u t e hu ht hr hc
    cases hu
    cases ht
    cases hr
    cases hc
    simp [fileTicket, getDescription]

/-- Witness for C7: in an environment where the template engine fails,
the invocation ends with a bad request and no submission attempt. -/
theorem fileTicket_error_flow_witness :
    (fileTicket envRenderFail).response.status = StatusBadRequest ∧
    (fileTicket envRenderFail).createCalls = 0 ∧
    (fileTicket envRenderFail).submitted = none :=
  (fileTicket_error_flow envRenderFail).2.2.2.2.2.1 userAlice taskEmpty "boom"
    rfl rfl rfl

/-- C8: on the successful path the submitted field mapping is built
once and holds exactly: project key `BF`, the summary, the
failing-tasks custom field with the one-element display-name list,
issue type `Build Failure`, assignee and reporter both the acting
user, and the rendered description. -/
theorem fileTicket_request_spec (env : Env) (u : User) (t : Task)
    (hu : env.user = some u) (ht : env.findTask = Except.ok (some t))
    (hr : env.engineErr = none) :
    (fileTicket env).submitted =
      some [("project", JiraValue.nameMap [("key", "BF")]),
            ("summary", JiraValue.str
              (getSummary t.DisplayName (buildTests t env.input.TestIds))),
            (FailingTasksField, JiraValue.strList [t.DisplayName]),
            ("issuetype", JiraValue.nameMap [("name", "Build Failure")]),
            ("assignee", JiraValue.nameMap [("name", u.Id)]),
            ("reporter", JiraValue.nameMap [("name", u.Id)]),
            ("description", JiraValue.str
              (renderDescription t u.Id (buildTests t env.input.TestIds)))] ∧
    (fileTicket env).createCalls = 1 := by
  obtain ⟨inp, user, ft, re, ct⟩ := env
  cases hu
  cases ht
  cases hr
  rcases ct with e | r <;>
    simp [fileTicket, getDescription, mkRequest]

/-- Witness for C8: the concrete all-success environment submits the
fully evaluated field mapping. -/
theorem fileTicket_request_spec_witness :
    (fileTicket envSubmitOK).submitted =
      some [("project", JiraValue.nameMap [("key", "BF")]),
            ("summary", JiraValue.str "T failure"),
            (FailingTasksField, JiraValue.strList ["T"]),
            ("issuetype", JiraValue.nameMap [("name", "Build Failure")]),
            ("assignee", JiraValue.nameMap [("name", "alice")]),
            ("reporter", JiraValue.nameMap [("name", "alice")]),
            ("description", JiraValue.str
              ("\nh2. [T failed on V|https://evergreen.mongodb.com/task/123]\n\n" ++
               "\n\n\n\n~BF Ticket Generated by [~alice]~\n"))] ∧
    (fileTicket envSubmitOK).createCalls = 1 := by
  have h := fileTicket_request_spec envSubmitOK userAlice taskEmpty rfl rfl rfl
  refine ⟨?_, h.2⟩
  rw [h.1]
  rfl

end BuildBaron
